import Mathlib

/-!
mfstool, `reader.c`: reading files out of a Minix file-system image.

A shallow embedding of `src/reader.c` (`readfile`, `cmd_copy`,
`isDirectoryEmpty`, `dfs_file_extract_v1`, `cmd_extract`) and theorems about it.

Conventions of the embedding.

* Bytes are natural numbers; C strings and paths are lists of non-zero bytes.
* `BLOCK_SIZE`, `MINIX_ROOT_INO`, the inode record types and the accessors
  `VERSION_2`, `INODE`, `INODE2`, `DIRSIZE`, `find_inode`, `read_inoblk` come
  from `minix_fs.h` / `protos.h`, which are not part of `reader.c`.  The two
  constants are parameters of the functions that use them, the accessors are
  fields of `minix_fs_dat`.
* Sizes are natural numbers: the C `int` variables `fdirsize` and `i` are taken
  in the range where they do not wrap.
* A `FILE` is its byte content together with the stream position.
* The process state `Run` carries the operations performed on the host
  file system so far, the invocations of `dfs_file_extract_v1` so far, and
  whether the process has stopped (`fatalmsg`, `die`).
-/

namespace Mfstool

/-! ## C strings -/

/-- A path or name: the bytes of a C string, terminator excluded. -/
abbrev Path := List Nat

/-- The bytes of a string literal. -/
def lit (s : String) : Path := s.toList.map Char.toNat

/-- Result of `str_combine(a, b)`: the concatenation of two C strings. -/
def str_combine (a b : Path) : Path := a ++ b

/-- The C string that starts at `buf + off`: the bytes up to the first NUL.
Reading stops at the end of the modelled buffer. -/
def cstr_at (buf : List Nat) (off : Nat) : Path :=
  (buf.drop off).takeWhile (fun b => b != 0)

/-- Value of `*((u16 *)(buf + off))` on a little-endian host. -/
def u16_at (buf : List Nat) (off : Nat) : Nat :=
  buf.getD off 0 + 256 * buf.getD (off + 1) 0

/-! ## `sys/stat.h` -/

def S_IFMT : Nat := 0o170000
def S_IFDIR : Nat := 0o040000
def S_IFREG : Nat := 0o100000
def S_IFLNK : Nat := 0o120000

def S_ISDIR (m : Nat) : Bool := m &&& S_IFMT == S_IFDIR
def S_ISREG (m : Nat) : Bool := m &&& S_IFMT == S_IFREG
def S_ISLNK (m : Nat) : Bool := m &&& S_IFMT == S_IFLNK

/-! ## The file-system handle -/

/-- Fields of `struct minix_inode` (version 1) that `reader.c` reads. -/
structure minix_inode where
  i_mode : Nat
  i_uid : Nat
  i_size : Nat
  i_time : Nat
  i_gid : Nat
deriving DecidableEq, Repr

/-- Fields of `struct minix2_inode` (version 2) that `reader.c` reads. -/
structure minix2_inode where
  i_mode : Nat
  i_uid : Nat
  i_gid : Nat
  i_size : Nat
  i_atime : Nat
  i_mtime : Nat
deriving DecidableEq, Repr

/-- What `reader.c` uses of `struct minix_fs_dat`.

* `version2` is `VERSION_2(fs)`;
* `INODE n` and `INODE2 n` are the two record views `INODE(fs,n)` and
  `INODE2(fs,n)` of the one inode table;
* `DIRSIZE` is `DIRSIZE(fs)`, the stride of a directory entry;
* `find_inode path` is `find_inode(fs,path)`, `none` standing for `-1`;
* `read_inoblk n k` is `read_inoblk(fs,n,k,blk)`: the value returned and the
  content of the buffer `blk` after the call. -/
structure minix_fs_dat where
  version2 : Bool
  INODE : Nat → minix_inode
  INODE2 : Nat → minix2_inode
  DIRSIZE : Nat
  find_inode : Path → Option Nat
  read_inoblk : Nat → Nat → Nat × List Nat

/-! ## Output streams -/

/-- A stdio stream: content of the underlying file and current position. -/
structure FILE where
  data : List Nat
  pos : Nat
deriving DecidableEq, Repr

/-- A freshly created, empty file opened for writing. -/
def FILE.empty : FILE := { data := [], pos := 0 }

/-- Store byte `c` at index `p`; a gap between the end and `p` reads as zero. -/
def poke (l : List Nat) (p c : Nat) : List Nat :=
  if p < l.length then l.set p c else l ++ List.replicate (p - l.length) 0 ++ [c]

/-- Effect of `putc(c, fp)`. -/
def putc (c : Nat) (fp : FILE) : FILE :=
  { data := poke fp.data fp.pos c, pos := fp.pos + 1 }

/-- Effect of `dofwrite(fp, blk, bsz)`: the first `bsz` bytes of `blk` are written. -/
def dofwrite (fp : FILE) (blk : List Nat) (bsz : Nat) : FILE :=
  (List.range bsz).foldl (fun f t => putc (blk.getD t 0) f) fp

/-- Effect of `for (j=0;j<bsz;j++) putc(0,fp);`. -/
def put_zeros (bsz : Nat) (fp : FILE) : FILE :=
  (List.range bsz).foldl (fun f _ => putc 0 f) fp

/-- Effect of `fseek(fp, off, SEEK_CUR)` with `off ≥ 0`: only the position moves. -/
def fseek_cur (fp : FILE) (off : Nat) : FILE :=
  { fp with pos := fp.pos + off }

/-! ## Counting loops -/

/-- Values taken by `i` in `for (i = start; i < limit; i += step)`, at most
`fuel` of them. -/
def loop_from (step limit : Nat) : Nat → Nat → List Nat
  | 0, _ => []
  | fuel + 1, i => if i < limit then i :: loop_from step limit fuel (i + step) else []

/-- Values taken by `i` in `for (i = 0; i < limit; i += step)` when `0 < step`
(`limit` iterations always suffice then). -/
def for_offsets (step limit : Nat) : List Nat :=
  loop_from step limit limit 0

/-! ## `readfile` -/

/-- Ways the process stops early. -/
inductive Fatal where
  | notFound        -- "%s: not found"
  | notRegular      -- "%s: is not a regular file"
  | notSymlink      -- "%s: is not a symbolic link"
  | usage           -- "Usage: ..."
  | dirNotEmpty     -- "output directory is not empty or not exist!"
  | die             -- `die(...)`: a host call failed
  | depth           -- recursion budget of the model exhausted
deriving DecidableEq, Repr

/-- Outcome of a call of `readfile`: the value returned, or the fatal error. -/
inductive Ret where
  | fatal (e : Fatal)
  | ok (inode : Nat)
deriving DecidableEq, Repr

/-- The length computed for a hole at byte offset `i`:
`fdirsize - i > BLOCK_SIZE ? BLOCK_SIZE : fdirsize % BLOCK_SIZE`. -/
def hole_bsz (BLOCK_SIZE fdirsize i : Nat) : Nat :=
  if fdirsize - i > BLOCK_SIZE then BLOCK_SIZE else fdirsize % BLOCK_SIZE

/-- One iteration of the loop of `readfile`, at byte offset `i`. -/
def readfile_body (BLOCK_SIZE : Nat) (fs : minix_fs_dat) (inode fdirsize : Nat)
    (ispipe : Bool) (fp : FILE) (i : Nat) : FILE :=
  let r := fs.read_inoblk inode (i / BLOCK_SIZE)
  if r.1 ≠ 0 then
    dofwrite fp r.2 r.1
  else
    let bsz := hole_bsz BLOCK_SIZE fdirsize i
    if ispipe then put_zeros bsz fp else fseek_cur fp bsz

/-- The loop `for (i = 0; i < fdirsize; i += BLOCK_SIZE) { ... }` of `readfile`. -/
def readfile_loop (BLOCK_SIZE : Nat) (fs : minix_fs_dat) (inode fdirsize : Nat)
    (ispipe : Bool) (fp : FILE) : FILE :=
  (for_offsets BLOCK_SIZE fdirsize).foldl
    (readfile_body BLOCK_SIZE fs inode fdirsize ispipe) fp

/-- The function `readfile(fs, fp, path, type, ispipe)`: the outcome and the
stream afterwards.  `fatalmsg` stops the process. -/
def readfile (BLOCK_SIZE : Nat) (fs : minix_fs_dat) (fp : FILE) (path : Path)
    (type : Nat) (ispipe : Bool) : Ret × FILE :=
  match fs.find_inode path with
  | none => (Ret.fatal Fatal.notFound, fp)
  | some inode =>
    if fs.version2 then
      let ino := fs.INODE2 inode
      if type = S_IFREG ∧ ¬ S_ISREG ino.i_mode then (Ret.fatal Fatal.notRegular, fp)
      else if type = S_IFLNK ∧ ¬ S_ISLNK ino.i_mode then (Ret.fatal Fatal.notSymlink, fp)
      else (Ret.ok inode, readfile_loop BLOCK_SIZE fs inode ino.i_size ispipe fp)
    else
      let ino := fs.INODE inode
      if type = S_IFREG ∧ ¬ S_ISREG ino.i_mode then (Ret.fatal Fatal.notRegular, fp)
      else if type = S_IFLNK ∧ ¬ S_ISLNK ino.i_mode then (Ret.fatal Fatal.notSymlink, fp)
      else (Ret.ok inode, readfile_loop BLOCK_SIZE fs inode ino.i_size ispipe fp)

/-! ## The host side -/

/-- Operations performed on the destination. -/
inductive HostOp where
  | mkdir (path : Path) (mode : Nat)
  | utime (path : Path) (actime modtime : Nat)
  | fopen (path : Path)                      -- created or truncated by `fopen(path,"wb")`
  | fclose (path : Path) (content : List Nat) -- content of the file when it is closed
  | chown (path : Path) (uid gid : Nat)
  | chmod (path : Path) (mode : Nat)
  | symlink (target path : Path)
  | skipped (path : Path)                    -- "skip file:" report
deriving DecidableEq, Repr

/-- The environment of the process: the global `opt_squash`, the value of
`getuid()`, whether `fopen(path, ...)` succeeds, and for `opendir(path)` the
names that the successive `readdir` calls return (`none`: `opendir` fails). -/
structure Host where
  opt_squash : Bool
  getuid : Nat
  fopen_ok : Path → Bool
  opendir : Path → Option (List Path)

/-- State of the running process: operations on the destination so far, the
invocations `(inode, inpath)` of `dfs_file_extract_v1` so far, and the reason
the process stopped, if it did. -/
structure Run where
  ops : List HostOp
  calls : List (Nat × Path)
  halt : Option Fatal
deriving DecidableEq, Repr

/-- The state before anything happened. -/
def Run.init : Run := { ops := [], calls := [], halt := none }

/-- Name of the scratch file of the symlink branch. -/
def sym_cnt_tmp : Path := lit "/tmp/sym_cnt_tmp"

/-! ## `cmd_copy` -/

/-- The function `cmd_copy(fs, argc, argv)`. -/
def cmd_copy (BLOCK_SIZE : Nat) (fs : minix_fs_dat) (host : Host)
    (argc : Nat) (argv : List Path) (st : Run) : Run :=
  if argc ≠ 3 then { st with halt := some Fatal.usage }
  else
    let out := argv.getD 2 []
    if ¬ host.fopen_ok out then { st with halt := some Fatal.die }
    else
      let st1 := { st with ops := st.ops ++ [HostOp.fopen out] }
      match readfile BLOCK_SIZE fs FILE.empty (argv.getD 1 []) S_IFREG false with
      | (Ret.fatal e, _) => { st1 with halt := some e }
      | (Ret.ok inode, fp) =>
        let actime := if fs.version2 then (fs.INODE2 inode).i_atime else (fs.INODE inode).i_time
        let modtime := if fs.version2 then (fs.INODE2 inode).i_mtime else (fs.INODE inode).i_time
        let uid := if fs.version2 then (fs.INODE2 inode).i_uid else (fs.INODE inode).i_uid
        let gid := if fs.version2 then (fs.INODE2 inode).i_gid else (fs.INODE inode).i_gid
        let mode := if fs.version2 then (fs.INODE2 inode).i_mode &&& 0o7777
                    else (fs.INODE inode).i_mode &&& 0o7777
        { st1 with ops := st1.ops ++ [HostOp.fclose out fp.data]
                    ++ (if ¬ (host.opt_squash ∨ host.getuid ≠ 0) then [HostOp.chown out uid gid] else [])
                    ++ [HostOp.chmod out mode, HostOp.utime out actime modtime] }

/-! ## `isDirectoryEmpty` -/

/-- The function `dfs_file_extract_v1(fs, inode, inpath, outdir)`.  The first
argument bounds the number of nested invocations; a stopped process does
nothing.  The results of `mkdir`, `utime` and `symlink` are not looked at by
the source and are not modelled; output on `stdout` is left out, the report on
`stderr` is kept.  In the symlink branch the scratch file is not counted among
the operations on the destination, `dofread` of more bytes than the file holds
stops the process, and `target` is the C string in the zero-filled buffer. -/
def dfs_file_extract_v1 (BLOCK_SIZE : Nat) (fs : minix_fs_dat) (host : Host) :
    Nat → Nat → Path → Path → Run → Run
  | 0, _, _, _, st => if st.halt.isSome then st else { st with halt := some Fatal.depth }
  | fuel + 1, inode, inpath, outdir, st =>
    if st.halt.isSome then st
    else
      let st0 := { st with calls := st.calls ++ [(inode, inpath)] }
      let fdirsize := if fs.version2 then (fs.INODE2 inode).i_size else (fs.INODE inode).i_size
      let ino := fs.INODE inode
      let dentsz := fs.DIRSIZE
      let cur_out_path := str_combine outdir inpath
      if S_ISDIR ino.i_mode then
        let st1 := { st0 with ops := st0.ops ++
          [HostOp.mkdir cur_out_path (ino.i_mode &&& 0o7777),
           HostOp.utime cur_out_path ino.i_time ino.i_time] }
        (for_offsets BLOCK_SIZE fdirsize).foldl (fun sti i =>
          let r := fs.read_inoblk inode (i / BLOCK_SIZE)
          (for_offsets dentsz r.1).foldl (fun stj j =>
            let ino_nxt := u16_at r.2 j
            let name := cstr_at r.2 (j + 2)
            if ino_nxt = 0 ∨ name = lit "." ∨ name = lit ".." then stj
            else
              let path_nxt := str_combine (str_combine inpath (lit "/")) name
              dfs_file_extract_v1 BLOCK_SIZE fs host fuel ino_nxt path_nxt outdir stj) sti) st1
      else if S_ISREG ino.i_mode then
        cmd_copy BLOCK_SIZE fs host 3 [lit "copy", inpath, cur_out_path] st0
      else if S_ISLNK ino.i_mode then
        if ¬ host.fopen_ok sym_cnt_tmp then { st0 with halt := some Fatal.die }
        else
          match readfile BLOCK_SIZE fs FILE.empty inpath S_IFLNK false with
          | (Ret.fatal e, _) => { st0 with halt := some e }
          | (Ret.ok _, fp) =>
            if fp.data.length < ino.i_size then { st0 with halt := some Fatal.die }
            else
              let target := cstr_at (fp.data.take ino.i_size) 0
              { st0 with ops := st0.ops ++ [HostOp.symlink target cur_out_path] }
      else
        { st0 with ops := st0.ops ++ [HostOp.skipped cur_out_path] }

/-- Mode stored in the inode's record of the image's own layout. -/
def stored_mode (fs : minix_fs_dat) (inode : Nat) : Nat :=
  if fs.version2 then (fs.INODE2 inode).i_mode else (fs.INODE inode).i_mode

/-- Size stored in the inode's record of the image's own layout. -/
def stored_size (fs : minix_fs_dat) (inode : Nat) : Nat :=
  if fs.version2 then (fs.INODE2 inode).i_size else (fs.INODE inode).i_size

/-- Owner stored in the inode's record of the image's own layout. -/
def stored_uid (fs : minix_fs_dat) (inode : Nat) : Nat :=
  if fs.version2 then (fs.INODE2 inode).i_uid else (fs.INODE inode).i_uid

/-- Group stored in the inode's record of the image's own layout. -/
def stored_gid (fs : minix_fs_dat) (inode : Nat) : Nat :=
  if fs.version2 then (fs.INODE2 inode).i_gid else (fs.INODE inode).i_gid

/-- Access time of the inode: `i_atime` in version 2, `i_time` in version 1. -/
def stored_atime (fs : minix_fs_dat) (inode : Nat) : Nat :=
  if fs.version2 then (fs.INODE2 inode).i_atime else (fs.INODE inode).i_time

/-- Modify time of the inode: `i_mtime` in version 2, `i_time` in version 1. -/
def stored_mtime (fs : minix_fs_dat) (inode : Nat) : Nat :=
  if fs.version2 then (fs.INODE2 inode).i_mtime else (fs.INODE inode).i_time

/-- The caller expects a regular file and the mode is not one, or expects a
symbolic link and the mode is not one. -/
def wrong_kind (type mode : Nat) : Prop :=
  (type = S_IFREG ∧ S_ISREG mode = false) ∨ (type = S_IFLNK ∧ S_ISLNK mode = false)

instance (type mode : Nat) : Decidable (wrong_kind type mode) := by
  unfold wrong_kind; infer_instance

/-! ## Concrete images and hosts -/

/-- A version-1 image with one regular file `f` (inode 2) of size `S`, none of
whose blocks is allocated. -/
def sparse_fs (S : Nat) : minix_fs_dat :=
  { version2 := false
    INODE := fun n => if n = 2 then ⟨0o100644, 0, S, 0, 0⟩ else ⟨0, 0, 0, 0, 0⟩
    INODE2 := fun _ => ⟨0, 0, 0, 0, 0, 0⟩
    DIRSIZE := 16
    find_inode := fun p => if p = lit "f" then some 2 else none
    read_inoblk := fun _ _ => (0, []) }

/-- A host on which every `fopen` succeeds and every directory is empty, run
by root without squashing. -/
def root_host : Host :=
  { opt_squash := false
    getuid := 0
    fopen_ok := fun _ => true
    opendir := fun _ => some [lit ".", lit ".."] }

/-- A version-2 image with one regular file `f` (inode 2): mode 0644, uid 1000,
gid 1000, empty, access time 1136073600 and modify time 1136160000. -/
def meta_fs : minix_fs_dat :=
  { version2 := true
    INODE := fun _ => ⟨0, 0, 0, 0, 0⟩
    INODE2 := fun n =>
      if n = 2 then ⟨0o100644, 1000, 1000, 0, 1136073600, 1136160000⟩ else ⟨0, 0, 0, 0, 0, 0⟩
    DIRSIZE := 16
    find_inode := fun p => if p = lit "f" then some 2 else none
    read_inoblk := fun _ _ => (0, []) }

/-- The entry's name as the on-disk format defines it: the null-padded name
field of `dentsz - 2` bytes that follows the inode number at offset `j`. -/
def entry_name (blk : List Nat) (dentsz j : Nat) : Path :=
  (((blk.drop (j + 2)).take (dentsz - 2))).takeWhile (fun b => b != 0)

/-- Bytes of one directory entry of stride `dentsz`: the inode number (low byte
first), then the name padded with NUL bytes to the width of the field. -/
def dirent (dentsz ino : Nat) (name : Path) : List Nat :=
  [ino % 256, ino / 256] ++ name ++ List.replicate (dentsz - 2 - name.length) 0

/-- Directory block of the entries `(0,"deleted"), (5,"."), (6,".."), (7,"child")`. -/
def filter_blk : List Nat :=
  dirent 16 0 (lit "deleted") ++ dirent 16 5 (lit ".") ++ dirent 16 6 (lit "..")
    ++ dirent 16 7 (lit "child")

/-- A version-1 image whose root directory (inode 1) consists of `filter_blk`;
inode 7 is an empty regular file. -/
def filter_fs : minix_fs_dat :=
  { version2 := false
    INODE := fun n =>
      if n = 1 then ⟨0o040755, 0, 64, 0, 0⟩
      else if n = 7 then ⟨0o100644, 0, 0, 0, 0⟩
      else ⟨0, 0, 0, 0, 0⟩
    INODE2 := fun _ => ⟨0, 0, 0, 0, 0, 0⟩
    DIRSIZE := 16
    find_inode := fun p => if p = lit "./child" then some 7 else none
    read_inoblk := fun n k => if n = 1 ∧ k = 0 then (64, filter_blk) else (0, []) }

/-- Directory block with a name that fills its 14-byte field, followed by a
second entry: `(7,"abcdefghijklmn"), (257,"x")`. -/
def longname_blk : List Nat :=
  dirent 16 7 (lit "abcdefghijklmn") ++ dirent 16 257 (lit "x")

/-- A version-1 image whose root directory (inode 1) consists of `longname_blk`;
inodes 7 and 257 are character devices. -/
def longname_fs : minix_fs_dat :=
  { version2 := false
    INODE := fun n =>
      if n = 1 then ⟨0o040755, 0, 32, 0, 0⟩ else ⟨0o020644, 0, 0, 0, 0⟩
    INODE2 := fun _ => ⟨0, 0, 0, 0, 0, 0⟩
    DIRSIZE := 16
    find_inode := fun _ => none
    read_inoblk := fun n k => if n = 1 ∧ k = 0 then (32, longname_blk) else (0, []) }

/-- Root directory block of `v2_fs`: `(1,"."), (1,".."), (2,"f")`. -/
def v2_blk : List Nat :=
  dirent 16 1 (lit ".") ++ dirent 16 1 (lit "..") ++ dirent 16 2 (lit "f")

/-- A version-2 image: the root directory (inode 1, mode 0755, size 48, access
time 1136073600, modify time 1136160000, two links) holds the empty regular
file `f` (inode 2).  `INODE` is what the version-1 record view reads in the
same inode table, whose records are 64 bytes long while the view strides by
32: for inode 1 the first half of the root's record (same `i_mode`, `i_time`
overlaying the version-2 `i_size`), for inode 2 the second half of the root's
record, where unused zone numbers are stored (all zero). -/
def v2_fs : minix_fs_dat :=
  { version2 := true
    INODE := fun n => if n = 1 then ⟨0o040755, 2, 0, 48, 128⟩ else ⟨0, 0, 0, 0, 0⟩
    INODE2 := fun n =>
      if n = 1 then ⟨0o040755, 0, 0, 48, 1136073600, 1136160000⟩
      else if n = 2 then ⟨0o100644, 0, 0, 0, 1136073600, 1136160000⟩
      else ⟨0, 0, 0, 0, 0, 0⟩
    DIRSIZE := 16
    find_inode := fun p => if p = lit "./f" then some 2 else none
    read_inoblk := fun n k => if n = 1 ∧ k = 0 then (48, v2_blk) else (0, []) }

/-- The calls `(ino_nxt, path_nxt)` that the two nested loops of the
directory branch of `dfs_file_extract_v1` issue for the directory `inode`
reached under `inpath`, in order. -/
def dir_calls (BLOCK_SIZE : Nat) (fs : minix_fs_dat) (inode : Nat) (inpath : Path) :
    List (Nat × Path) :=
  (for_offsets BLOCK_SIZE (stored_size fs inode)).flatMap (fun i =>
    let r := fs.read_inoblk inode (i / BLOCK_SIZE)
    (for_offsets fs.DIRSIZE r.1).filterMap (fun j =>
      let ino_nxt := u16_at r.2 j
      let name := cstr_at r.2 (j + 2)
      if ino_nxt = 0 ∨ name = lit "." ∨ name = lit ".." then none
      else some (ino_nxt, str_combine (str_combine inpath (lit "/")) name)))

/-- The entries to follow in the directory `inode` reached under `inpath`, as
the on-disk format defines them: block after block and entry after entry of
stride `DIRSIZE`, each entry being its inode number and its null-padded name
field; entries with inode number 0 and the names `.` and `..` are left out,
the others give `(inode number, inpath + "/" + name)`. -/
def followed_entries (BLOCK_SIZE : Nat) (fs : minix_fs_dat) (inode : Nat) (inpath : Path) :
    List (Nat × Path) :=
  (for_offsets BLOCK_SIZE (stored_size fs inode)).flatMap (fun i =>
    let r := fs.read_inoblk inode (i / BLOCK_SIZE)
    (((for_offsets fs.DIRSIZE r.1).map (fun j => (u16_at r.2 j, entry_name r.2 fs.DIRSIZE j))).filter
      (fun e => decide (¬ (e.1 = 0 ∨ e.2 = lit "." ∨ e.2 = lit "..")))).map
      (fun e => (e.1, str_combine (str_combine inpath (lit "/")) e.2)))

/-- State after the entry of `dfs_file_extract_v1` has been recorded. -/
def Run.enter (st : Run) (inode : Nat) (inpath : Path) : Run :=
  { st with calls := st.calls ++ [(inode, inpath)] }

/-- State after further operations on the destination. -/
def Run.emit (st : Run) (ops : List HostOp) : Run :=
  { st with ops := st.ops ++ ops }

/-- Combined state: `r` describes what happened after `st`. -/
def Run.after (st r : Run) : Run :=
  { ops := st.ops ++ r.ops, calls := st.calls ++ r.calls, halt := r.halt }

/-- Visit of one inode alone, from the initial state, with no nested
invocation allowed: what the traversal does at an object that is not a
directory. -/
def leaf_effect (BLOCK_SIZE : Nat) (fs : minix_fs_dat) (host : Host) (inode : Nat)
    (inpath outdir : Path) : Run :=
  dfs_file_extract_v1 BLOCK_SIZE fs host 1 inode inpath outdir Run.init

/-- Recognises `mkdir` among the operations on the destination. -/
def is_mkdir : HostOp → Bool
  | HostOp.mkdir _ _ => true
  | _ => false

/-- Recognises the creation of a file among the operations on the destination. -/
def is_fopen : HostOp → Bool
  | HostOp.fopen _ => true
  | _ => false

/-! ## Directory trees -/

mutual
/-- A finite directory tree: a leaf is an object that is not a directory, a
directory has named children, in the order of its entries. -/
inductive Tree where
  | leaf (ino : Nat)
  | dir (ino : Nat) (kids : Forest)
/-- The named children of a directory. -/
inductive Forest where
  | nil
  | cons (name : Path) (t : Tree) (rest : Forest)
end

/-- Inode number of the root of a tree. -/
def Tree.ino : Tree → Nat
  | Tree.leaf i => i
  | Tree.dir i _ => i

/-- The children as `(inode, path)`, for a directory reached under `inpath`. -/
def Forest.entries : Forest → Path → List (Nat × Path)
  | Forest.nil, _ => []
  | Forest.cons name t rest, inpath =>
    (t.ino, str_combine (str_combine inpath (lit "/")) name) :: rest.entries inpath

mutual
/-- Number of levels of a tree. -/
def Tree.depth : Tree → Nat
  | Tree.leaf _ => 1
  | Tree.dir _ kids => kids.depth + 1
/-- Number of levels of the deepest child. -/
def Forest.depth : Forest → Nat
  | Forest.nil => 0
  | Forest.cons _ t rest => max t.depth rest.depth
end

mutual
/-- The nodes of a tree, parents first and children in order, each with the
path under which it is reached when the root is reached under `inpath`. -/
def Tree.visits : Tree → Path → List (Nat × Path)
  | Tree.leaf ino, inpath => [(ino, inpath)]
  | Tree.dir ino kids, inpath => (ino, inpath) :: kids.visits inpath
/-- The nodes of the children's trees, in order. -/
def Forest.visits : Forest → Path → List (Nat × Path)
  | Forest.nil, _ => []
  | Forest.cons name t rest, inpath =>
    t.visits (str_combine (str_combine inpath (lit "/")) name) ++ rest.visits inpath
end

mutual
/-- Number of nodes of a tree. -/
def Tree.size : Tree → Nat
  | Tree.leaf _ => 1
  | Tree.dir _ kids => kids.size + 1
/-- Number of nodes of the children's trees. -/
def Forest.size : Forest → Nat
  | Forest.nil => 0
  | Forest.cons _ t rest => t.size + rest.size
end

mutual
/-- Number of directories in a tree. -/
def Tree.dirs : Tree → Nat
  | Tree.leaf _ => 0
  | Tree.dir _ kids => kids.dirs + 1
/-- Number of directories in the children's trees. -/
def Forest.dirs : Forest → Nat
  | Forest.nil => 0
  | Forest.cons _ t rest => t.dirs + rest.dirs
end

mutual
/-- Number of leaves of a tree that the traversal takes for regular files. -/
def Tree.regs (fs : minix_fs_dat) : Tree → Nat
  | Tree.leaf ino => if S_ISREG (fs.INODE ino).i_mode then 1 else 0
  | Tree.dir _ kids => kids.regs fs
/-- Number of such leaves in the children's trees. -/
def Forest.regs (fs : minix_fs_dat) : Forest → Nat
  | Forest.nil => 0
  | Forest.cons _ t rest => t.regs fs + rest.regs fs
end

mutual
/-- The image shows the tree `t` at `inode = t.ino` reached under `inpath`:
a directory node is an inode the traversal takes for a directory and whose
entries, once those with inode number 0 and the names `.` and `..` are left
out, are its children in order; a leaf is an inode the traversal does not
take for a directory and whose visit raises no fatal error. -/
def Tree.shown (BLOCK_SIZE : Nat) (fs : minix_fs_dat) (host : Host) (outdir : Path) :
    Tree → Path → Bool
  | Tree.leaf ino, inpath =>
    !S_ISDIR (fs.INODE ino).i_mode
      && (leaf_effect BLOCK_SIZE fs host ino inpath outdir).halt == none
  | Tree.dir ino kids, inpath =>
    S_ISDIR (fs.INODE ino).i_mode
      && dir_calls BLOCK_SIZE fs ino inpath == kids.entries inpath
      && kids.shown BLOCK_SIZE fs host outdir inpath
/-- The image shows every child's tree. -/
def Forest.shown (BLOCK_SIZE : Nat) (fs : minix_fs_dat) (host : Host) (outdir : Path) :
    Forest → Path → Bool
  | Forest.nil, _ => true
  | Forest.cons name t rest, inpath =>
    t.shown BLOCK_SIZE fs host outdir (str_combine (str_combine inpath (lit "/")) name)
      && rest.shown BLOCK_SIZE fs host outdir inpath
end

/-- What a run of the traversal from `st` has to be on a tree of the given
calls, numbers of directories and of regular files, when `fuel` nested
invocations are allowed and `depth` are needed. -/
def visit_spec (st r : Run) (fuel depth : Nat) (calls : List (Nat × Path))
    (dirs regs : Nat) : Prop :=
  (depth ≤ fuel →
      r.halt = none ∧ r.calls = st.calls ++ calls
      ∧ r.ops.countP is_mkdir = st.ops.countP is_mkdir + dirs
      ∧ r.ops.countP is_fopen = st.ops.countP is_fopen + regs)
  ∧ (fuel < depth → r.halt = some Fatal.depth)

/-- The bytes one iteration of the loop of `readfile` emits in non-seekable
mode at byte offset `i`: the block read, or the zero bytes of the hole. -/
def pipe_chunk (BLOCK_SIZE : Nat) (fs : minix_fs_dat) (inode fdirsize i : Nat) : List Nat :=
  let r := fs.read_inoblk inode (i / BLOCK_SIZE)
  if r.1 ≠ 0 then (List.range r.1).map (fun t => r.2.getD t 0)
  else List.replicate (hole_bsz BLOCK_SIZE fdirsize i) 0

/-- The relation kept between the stream `p` of a run in non-seekable mode
and the stream `s` of the same run in seekable mode: `p` is at its end, both
are at the same position, and `p` holds the content of `s` followed by zero
bytes up to that position. -/
def seek_rel (p s : FILE) : Prop :=
  p.pos = p.data.length ∧ s.pos = p.pos
    ∧ p.data = s.data ++ List.replicate (s.pos - s.data.length) 0

/-! ## The counting loop -/


theorem ceil_step (x step : Nat) (hs : 0 < step) (hx : 0 < x) :
    (x + step - 1) / step = (x - step + step - 1) / step + 1 := by
  rcases Nat.lt_or_ge step x with h | h
  · have e1 : x + step - 1 = (x - 1) + step := by omega
    have e2 : x - step + step - 1 = x - 1 := by omega
    rw [e1, e2, Nat.add_div_right _ hs]
  · have e2 : x - step + step - 1 = step - 1 := by omega
    rw [e2, Nat.div_eq_of_lt (by omega : step - 1 < step)]
    apply Nat.div_eq_of_lt_le <;> omega

theorem loop_from_eq (step limit : Nat) (hs : 0 < step) :
    ∀ fuel i, limit ≤ i + fuel →
      loop_from step limit fuel i
        = (List.range ((limit - i + step - 1) / step)).map (fun k => i + k * step) := by
  intro fuel
  induction fuel with
  | zero =>
    intro i h
    have e : limit - i + step - 1 = step - 1 := by omega
    simp [loop_from, e, Nat.div_eq_of_lt (by omega : step - 1 < step)]
  | succ n ih =>
    intro i h
    unfold loop_from
    split
    · rename_i hlt
      rw [ih (i + step) (by omega), ceil_step (limit - i) step hs (by omega)]
      have e : limit - i - step = limit - (i + step) := by omega
      rw [e, List.range_succ_eq_map, List.map_cons, List.map_map]
      simp only [Nat.zero_mul, Nat.add_zero, List.cons.injEq, true_and]
      apply List.map_congr_left
      intro k _
      simp only [Function.comp, Nat.succ_eq_add_one]
      ring
    · have e : limit - i + step - 1 = step - 1 := by omega
      simp [e, Nat.div_eq_of_lt (by omega : step - 1 < step)]

theorem for_offsets_eq (step limit : Nat) (hs : 0 < step) :
    for_offsets step limit = (List.range ((limit + step - 1) / step)).map (fun k => k * step) := by
  unfold for_offsets
  rw [loop_from_eq step limit hs limit 0 (by omega)]
  simp


theorem putc_at_end (c : Nat) (fp : FILE) (h : fp.pos = fp.data.length) :
    putc c fp = { data := fp.data ++ [c], pos := fp.pos + 1 } := by
  simp [putc, poke, h]

theorem put_zeros_at_end (n : Nat) (fp : FILE) (h : fp.pos = fp.data.length) :
    put_zeros n fp = { data := fp.data ++ List.replicate n 0, pos := fp.pos + n } := by
  induction n with
  | zero => simp [put_zeros]
  | succ n ih =>
    unfold put_zeros at ih ⊢
    rw [List.range_succ, List.foldl_append, ih]
    simp only [List.foldl_cons, List.foldl_nil]
    rw [putc_at_end _ _ (by simp [h])]
    simp [List.replicate_succ', Nat.add_assoc]

/-! ## `readfile`: the length of a hole -/

theorem hole_bsz_eq_min (BS S k : Nat) (hk : k * BS < S)
    (hne : S - k * BS ≠ BS) : hole_bsz BS S (k * BS) = min BS (S - k * BS) := by
  unfold hole_bsz
  by_cases h : S - k * BS > BS
  · rw [if_pos h, Nat.min_eq_left (by omega)]
  · rw [if_neg h, Nat.min_eq_right (by omega)]
    have hlt : S - k * BS < BS := by omega
    have e : S = (S - k * BS) + k * BS := by omega
    conv_lhs => rw [e]
    rw [Nat.add_mul_mod_self_right, Nat.mod_eq_of_lt hlt]

/-- C1: code evaluated where the claim fails.  When the size is an exact
multiple of `BLOCK_SIZE` and the hole is the last block (offset `k * BLOCK_SIZE`
in a file of `(k + 1) * BLOCK_SIZE` bytes), the length computed for the hole is
`0`, whereas `min(BLOCK_SIZE, S - k * BLOCK_SIZE)` is `BLOCK_SIZE`; on the
one-block sparse file of 1024 bytes neither mode writes or advances anything. -/
theorem hole_bsz_last_block_of_exact_multiple (BS k : Nat) :
    hole_bsz BS ((k + 1) * BS) (k * BS) = 0
    ∧ min BS ((k + 1) * BS - k * BS) = BS
    ∧ readfile_body 1024 (sparse_fs 1024) 2 1024 true FILE.empty 0 = FILE.empty
    ∧ readfile_body 1024 (sparse_fs 1024) 2 1024 false FILE.empty 0 = FILE.empty := by
  have e : (k + 1) * BS - k * BS = BS := by rw [Nat.add_mul]; omega
  refine ⟨?_, by rw [e]; simp, by decide, by decide⟩
  unfold hole_bsz
  rw [e, if_neg (by omega)]
  simp

/-- C2: code evaluated where the claim fails.  The file `f` has size 1024 and
its only block is a hole, which the block reader reports by returning 0;
`readfile` in non-seekable mode emits no byte at all, so the output length is
0 and not 1024. -/
theorem readfile_pipe_loses_final_hole :
    (sparse_fs 1024).find_inode (lit "f") = some 2
    ∧ stored_size (sparse_fs 1024) 2 = 1024
    ∧ ((sparse_fs 1024).read_inoblk 2 0).1 = 0
    ∧ readfile 1024 (sparse_fs 1024) FILE.empty (lit "f") S_IFREG true
        = (Ret.ok 2, { data := [], pos := 0 }) := by
  decide

/-- C3: code evaluated where the claim fails.  The file `f` has size 1 and its
only (final) block is a hole.  Non-seekable mode emits one zero byte; seekable
mode on a fresh empty file only moves the position, so the content read back
is empty, and `cmd_copy` closes an empty destination file: the two differ in
length. -/
theorem readfile_seek_differs_on_final_hole :
    readfile 1024 (sparse_fs 1) FILE.empty (lit "f") S_IFREG true
        = (Ret.ok 2, { data := [0], pos := 1 })
    ∧ readfile 1024 (sparse_fs 1) FILE.empty (lit "f") S_IFREG false
        = (Ret.ok 2, { data := [], pos := 1 })
    ∧ (cmd_copy 1024 (sparse_fs 1) root_host 3 [lit "copy", lit "f", lit "out"] Run.init).ops
        = [HostOp.fopen (lit "out"), HostOp.fclose (lit "out") [],
           HostOp.chown (lit "out") 0 0, HostOp.chmod (lit "out") 0o644,
           HostOp.utime (lit "out") 0 0] := by
  decide

/-! ## `readfile`: the final block that is not full -/

/-- C5: in both inode layouts `readfile` stops with a fatal error exactly when
the path does not resolve (`notFound`) or the mode stored for the resolved
inode is not of the kind the caller expects (`notRegular`, `notSymlink`); in
that case the stream is untouched (no byte written, same position); otherwise
it returns the inode number the path resolved to. -/
theorem readfile_fatal_iff (BS : Nat) (hBS : 0 < BS) (fs : minix_fs_dat) (fp : FILE)
    (path : Path) (type : Nat) (ispipe : Bool) :
    ((∃ e, (readfile BS fs fp path type ispipe).1 = Ret.fatal e) ↔
        (fs.find_inode path = none ∨
          ∃ inode, fs.find_inode path = some inode ∧ wrong_kind type (stored_mode fs inode)))
    ∧ ((readfile BS fs fp path type ispipe).1 = Ret.fatal Fatal.notFound ↔
        fs.find_inode path = none)
    ∧ (∀ e, (readfile BS fs fp path type ispipe).1 = Ret.fatal e →
        (readfile BS fs fp path type ispipe).2 = fp)
    ∧ (∀ inode, fs.find_inode path = some inode →
        ¬ wrong_kind type (stored_mode fs inode) →
        (readfile BS fs fp path type ispipe).1 = Ret.ok inode) := by
  have _ := hBS
  unfold readfile wrong_kind stored_mode
  cases hf : fs.find_inode path with
  | none => simp
  | some inode =>
    cases hv : fs.version2 <;> simp only [hv] <;>
      split_ifs <;> simp_all

/-- Witness of C5: reading `f` from the sparse image with `BLOCK_SIZE = 1024`. -/
theorem readfile_fatal_iff_witness :
    (readfile 1024 (sparse_fs 1) FILE.empty (lit "f") S_IFLNK true).1
        = Ret.fatal Fatal.notSymlink
    ∧ (readfile 1024 (sparse_fs 1) FILE.empty (lit "f") S_IFLNK true).2 = FILE.empty
    ∧ (readfile 1024 (sparse_fs 1) FILE.empty (lit "f") S_IFREG true).1 = Ret.ok 2 := by
  have h := readfile_fatal_iff 1024 (by decide) (sparse_fs 1) FILE.empty (lit "f")
  exact ⟨by decide, (h S_IFLNK true).2.2.1 Fatal.notSymlink (by decide),
    (h S_IFREG true).2.2.2 2 (by decide) (by decide)⟩

/-! ## `cmd_copy`: metadata -/

theorem readfile_ok (BS : Nat) (fs : minix_fs_dat) (fp : FILE) (path : Path)
    (type : Nat) (ispipe : Bool) (inode : Nat)
    (h : (readfile BS fs fp path type ispipe).1 = Ret.ok inode) :
    fs.find_inode path = some inode ∧ ¬ wrong_kind type (stored_mode fs inode) := by
  unfold readfile at h
  unfold wrong_kind stored_mode
  cases hf : fs.find_inode path with
  | none => simp [hf] at h
  | some n =>
    simp only [hf] at h
    cases hv : fs.version2 <;> simp only [hv] at h <;>
      split_ifs at h <;> simp_all

theorem cmd_copy_ops (BS : Nat) (fs : minix_fs_dat) (host : Host)
    (argc : Nat) (argv : List Path) (st : Run)
    (hend : (cmd_copy BS fs host argc argv st).halt = none) :
    ∃ inode content,
      fs.find_inode (argv.getD 1 []) = some inode
      ∧ S_ISREG (stored_mode fs inode) = true
      ∧ (cmd_copy BS fs host argc argv st).ops
          = st.ops ++ [HostOp.fopen (argv.getD 2 []), HostOp.fclose (argv.getD 2 []) content]
            ++ (if host.opt_squash = false ∧ host.getuid = 0
                then [HostOp.chown (argv.getD 2 []) (stored_uid fs inode) (stored_gid fs inode)]
                else [])
            ++ [HostOp.chmod (argv.getD 2 []) (stored_mode fs inode &&& 0o7777),
                HostOp.utime (argv.getD 2 []) (stored_atime fs inode) (stored_mtime fs inode)] := by
  generalize hout : argv.getD 2 [] = out at *
  generalize hsrc : argv.getD 1 [] = src at *
  unfold cmd_copy at hend ⊢
  simp only [hout, hsrc] at hend ⊢
  by_cases hargc : argc = 3
  · by_cases hopen : host.fopen_ok out = true
    · simp only [hargc, hopen, ne_eq, not_true_eq_false, if_false] at hend ⊢
      rcases hr : readfile BS fs FILE.empty src S_IFREG false with ⟨r, fp⟩
      rw [hr] at hend
      cases r with
      | fatal e => simp at hend
      | ok inode =>
        have hk := readfile_ok BS fs FILE.empty src S_IFREG false inode (by rw [hr])
        refine ⟨inode, fp.data, hk.1, ?_, ?_⟩
        · have h2 := hk.2
          unfold wrong_kind at h2
          simp at h2
          exact h2.1
        · simp only [stored_uid, stored_gid, stored_mode, stored_atime, stored_mtime]
          cases hv : fs.version2 <;> cases hs : host.opt_squash <;>
            by_cases hu : host.getuid = 0 <;> simp [hs, hu]
    · simp [hargc, hopen] at hend
  · simp [hargc] at hend

/-- C9: in both inode layouts, when `cmd_copy` runs to its end the operations it
performs on the destination file are: create it, close it, `chown` to the
inode's uid and gid exactly when squashing is off and the caller's uid is 0,
`chmod` to the inode's mode masked with `07777`, and `utime` with the inode's
access and modify time (`i_atime`, `i_mtime` in version 2, `i_time` for both in
version 1); the inode is the regular file the image path resolves to. -/
theorem cmd_copy_metadata (BS : Nat) (hBS : 0 < BS) (fs : minix_fs_dat) (host : Host)
    (argc : Nat) (argv : List Path) (st : Run)
    (hend : (cmd_copy BS fs host argc argv st).halt = none) :
    ∃ inode content,
      fs.find_inode (argv.getD 1 []) = some inode
      ∧ S_ISREG (stored_mode fs inode) = true
      ∧ (cmd_copy BS fs host argc argv st).ops
          = st.ops ++ [HostOp.fopen (argv.getD 2 []), HostOp.fclose (argv.getD 2 []) content]
            ++ (if host.opt_squash = false ∧ host.getuid = 0
                then [HostOp.chown (argv.getD 2 []) (stored_uid fs inode) (stored_gid fs inode)]
                else [])
            ++ [HostOp.chmod (argv.getD 2 []) (stored_mode fs inode &&& 0o7777),
                HostOp.utime (argv.getD 2 []) (stored_atime fs inode) (stored_mtime fs inode)] :=
  have _ := hBS
  cmd_copy_ops BS fs host argc argv st hend

/-- Witness of C9: mode 0644, uid 1000, gid 1000, modify time 1136160000,
copied by root without squashing. -/
theorem cmd_copy_metadata_witness :
    (∃ inode content,
      meta_fs.find_inode (lit "f") = some inode
      ∧ S_ISREG (stored_mode meta_fs inode) = true
      ∧ (cmd_copy 1024 meta_fs root_host 3 [lit "copy", lit "f", lit "out"] Run.init).ops
          = [HostOp.fopen (lit "out"), HostOp.fclose (lit "out") content]
            ++ (if root_host.opt_squash = false ∧ root_host.getuid = 0
                then [HostOp.chown (lit "out") (stored_uid meta_fs inode) (stored_gid meta_fs inode)]
                else [])
            ++ [HostOp.chmod (lit "out") (stored_mode meta_fs inode &&& 0o7777),
                HostOp.utime (lit "out") (stored_atime meta_fs inode) (stored_mtime meta_fs inode)])
    ∧ (cmd_copy 1024 meta_fs root_host 3 [lit "copy", lit "f", lit "out"] Run.init).ops
        = [HostOp.fopen (lit "out"), HostOp.fclose (lit "out") [],
           HostOp.chown (lit "out") 1000 1000, HostOp.chmod (lit "out") 0o644,
           HostOp.utime (lit "out") 1136073600 1136160000] :=
  ⟨cmd_copy_metadata 1024 (by decide) meta_fs root_host 3 [lit "copy", lit "f", lit "out"]
    Run.init (by decide), by decide⟩

/-! ## The record view used by the traversal -/

/-- C10: code evaluated where the claim fails.  On the version-2 image
`v2_fs` the traversal reads mode and time through the version-1 view
`INODE`: the root directory gets the time 48, which is its version-2 `i_size`,
instead of its `i_atime` 1136073600 and `i_mtime` 1136160000, and inode 2,
a regular file by its version-2 `i_mode`, is branched on as an object of
another kind and skipped. -/
theorem dfs_reads_version1_view_on_version2_image :
    (dfs_file_extract_v1 1024 v2_fs root_host 8 1 (lit ".") (lit "out/") Run.init).ops
        = [HostOp.mkdir (lit "out/.") 0o755, HostOp.utime (lit "out/.") 48 48,
           HostOp.skipped (lit "out/./f")]
    ∧ stored_atime v2_fs 1 = 1136073600
    ∧ stored_mtime v2_fs 1 = 1136160000
    ∧ S_ISREG (stored_mode v2_fs 2) = true := by
  decide

/-! ## Directory entries -/

/-- C4: code evaluated where the claim fails.  In `longname_blk` the first
entry has inode 7 and the 14-byte name field `abcdefghijklmn`, which fills the
field and so carries no NUL; the traversal reads the name as a C string, runs
on through the inode number 257 (bytes 1, 1) and the name `x` of the next
entry, and calls itself with the path `./abcdefghijklmn` followed by the bytes
1, 1 and `x`.  On the block `(0,"deleted"), (5,"."), (6,".."), (7,"child")` the
only call is the one for inode 7 under `./child`. -/
theorem dfs_reads_name_past_its_field :
    u16_at longname_blk 0 = 7
    ∧ entry_name longname_blk 16 0 = lit "abcdefghijklmn"
    ∧ cstr_at longname_blk 2 = lit "abcdefghijklmn" ++ [1, 1] ++ lit "x"
    ∧ (dfs_file_extract_v1 1024 longname_fs root_host 8 1 (lit ".") (lit "out/") Run.init).calls
        = [(1, lit "."), (7, lit "./abcdefghijklmn" ++ [1, 1] ++ lit "x"), (257, lit "./x")]
    ∧ (dfs_file_extract_v1 1024 filter_fs root_host 8 1 (lit ".") (lit "out/") Run.init).calls
        = [(1, lit "."), (7, lit "./child")] := by
  decide

theorem filterMap_eq_map_filter_map {α β γ : Type} (f : α → β) (p : β → Bool) (g : β → γ) :
    ∀ xs : List α,
      xs.filterMap (fun x => if p (f x) = true then some (g (f x)) else none)
        = ((xs.map f).filter p).map g := by
  intro xs
  induction xs with
  | nil => rfl
  | cons x xs ih =>
    cases h : p (f x) with
    | true => simp [List.filterMap_cons, h, ih]
    | false => simp [List.filterMap_cons, h, ih]

/-- When every name read in the blocks of a directory ends within its field
(the C string at the name is the null-padded field), the calls issued by the
two loops are the entries to follow, in block order and entry order. -/
theorem dir_calls_eq_followed (BS : Nat) (fs : minix_fs_dat) (inode : Nat) (inpath : Path)
    (hname : ∀ i ∈ for_offsets BS (stored_size fs inode),
      ∀ j ∈ for_offsets fs.DIRSIZE (fs.read_inoblk inode (i / BS)).1,
        cstr_at (fs.read_inoblk inode (i / BS)).2 (j + 2)
          = entry_name (fs.read_inoblk inode (i / BS)).2 fs.DIRSIZE j) :
    dir_calls BS fs inode inpath = followed_entries BS fs inode inpath := by
  unfold dir_calls followed_entries
  apply List.flatMap_congr
  intro i hi
  dsimp only
  rw [← filterMap_eq_map_filter_map
    (fun j => (u16_at (fs.read_inoblk inode (i / BS)).2 j,
      entry_name (fs.read_inoblk inode (i / BS)).2 fs.DIRSIZE j))
    (fun e => decide (¬ (e.1 = 0 ∨ e.2 = lit "." ∨ e.2 = lit "..")))
    (fun e => (e.1, str_combine (str_combine inpath (lit "/")) e.2))]
  apply List.filterMap_congr
  intro j hj
  rw [hname i hi j hj]
  by_cases h : u16_at (fs.read_inoblk inode (i / BS)).2 j = 0
      ∨ entry_name (fs.read_inoblk inode (i / BS)).2 fs.DIRSIZE j = lit "."
      ∨ entry_name (fs.read_inoblk inode (i / BS)).2 fs.DIRSIZE j = lit ".."
  · simp [h]
  · simp [h]

/-! ## Invocations of the traversal only accumulate -/

theorem cmd_copy_calls (BS : Nat) (fs : minix_fs_dat) (host : Host) (argc : Nat)
    (argv : List Path) (st : Run) :
    (cmd_copy BS fs host argc argv st).calls = st.calls := by
  unfold cmd_copy
  dsimp only
  by_cases h1 : argc ≠ 3
  · rw [if_pos h1]
  · rw [if_neg h1]
    by_cases h2 : ¬ host.fopen_ok (argv.getD 2 []) = true
    · rw [if_pos h2]
    · rw [if_neg h2]
      split <;> rfl

/-! ## Unfolding the traversal -/

theorem foldl_flatMap_eq {α β γ : Type} (f : γ → β → γ) (g : α → List β) :
    ∀ (xs : List α) (s : γ),
      (xs.flatMap g).foldl f s = xs.foldl (fun s x => (g x).foldl f s) s := by
  intro xs
  induction xs with
  | nil => intro s; rfl
  | cons x xs ih => intro s; rw [List.flatMap_cons, List.foldl_append, ih, List.foldl_cons]

theorem foldl_filterMap_eq {α β γ : Type} (f : γ → β → γ) (g : α → Option β) :
    ∀ (xs : List α) (s : γ),
      (xs.filterMap g).foldl f s
        = xs.foldl (fun s x => match g x with | none => s | some y => f s y) s := by
  intro xs
  induction xs with
  | nil => intro s; rfl
  | cons x xs ih =>
    intro s
    cases h : g x with
    | none => rw [List.filterMap_cons_none h, ih, List.foldl_cons, h]
    | some y => rw [List.filterMap_cons_some h, List.foldl_cons, ih, List.foldl_cons, h]

theorem dfs_halted (BS : Nat) (fs : minix_fs_dat) (host : Host) (fuel inode : Nat)
    (inpath outdir : Path) (st : Run) (h : st.halt.isSome = true) :
    dfs_file_extract_v1 BS fs host fuel inode inpath outdir st = st := by
  cases fuel <;> simp [dfs_file_extract_v1, h]

theorem dfs_no_fuel (BS : Nat) (fs : minix_fs_dat) (host : Host) (inode : Nat)
    (inpath outdir : Path) (st : Run) (h : st.halt = none) :
    dfs_file_extract_v1 BS fs host 0 inode inpath outdir st
      = { st with halt := some Fatal.depth } := by
  simp [dfs_file_extract_v1, h]

theorem dfs_dir (BS : Nat) (fs : minix_fs_dat) (host : Host) (fuel inode : Nat)
    (inpath outdir : Path) (st : Run) (h : st.halt = none)
    (hd : S_ISDIR (fs.INODE inode).i_mode = true) :
    dfs_file_extract_v1 BS fs host (fuel + 1) inode inpath outdir st
      = (dir_calls BS fs inode inpath).foldl
          (fun s c => dfs_file_extract_v1 BS fs host fuel c.1 c.2 outdir s)
          ((st.enter inode inpath).emit
            [HostOp.mkdir (str_combine outdir inpath) ((fs.INODE inode).i_mode &&& 0o7777),
             HostOp.utime (str_combine outdir inpath) (fs.INODE inode).i_time
               (fs.INODE inode).i_time]) := by
  rw [dfs_file_extract_v1]
  simp only [h, Option.isSome_none, Bool.false_eq_true, if_false, hd, if_true]
  unfold dir_calls
  rw [foldl_flatMap_eq]
  simp only [foldl_filterMap_eq]
  unfold stored_size
  congr 1
  · funext sti i
    congr 1
    funext stj j
    split_ifs <;> rfl
  · simp [Run.enter, Run.emit, h]

theorem dfs_reg (BS : Nat) (fs : minix_fs_dat) (host : Host) (fuel inode : Nat)
    (inpath outdir : Path) (st : Run) (h : st.halt = none)
    (hd : S_ISDIR (fs.INODE inode).i_mode = false)
    (hr : S_ISREG (fs.INODE inode).i_mode = true) :
    dfs_file_extract_v1 BS fs host (fuel + 1) inode inpath outdir st
      = cmd_copy BS fs host 3 [lit "copy", inpath, str_combine outdir inpath]
          (st.enter inode inpath) := by
  rw [dfs_file_extract_v1]
  simp only [h, Option.isSome_none, Bool.false_eq_true, if_false, hd, hr, if_true]
  simp [Run.enter, h]

/-! ## Objects that are not directories -/

theorem cmd_copy_frame (BS : Nat) (fs : minix_fs_dat) (host : Host) (argc : Nat)
    (argv : List Path) (st : Run) (h : st.halt = none) :
    cmd_copy BS fs host argc argv st = st.after (cmd_copy BS fs host argc argv Run.init) := by
  unfold cmd_copy
  dsimp only
  by_cases h1 : argc ≠ 3
  · rw [if_pos h1, if_pos h1]; simp [Run.after, Run.init]
  · rw [if_neg h1, if_neg h1]
    by_cases h2 : ¬ host.fopen_ok (argv.getD 2 []) = true
    · rw [if_pos h2, if_pos h2]; simp [Run.after, Run.init]
    · rw [if_neg h2, if_neg h2]
      split <;> simp [Run.after, Run.init, h]

theorem dfs_nondir (BS : Nat) (fs : minix_fs_dat) (host : Host) (fuel inode : Nat)
    (inpath outdir : Path) (st : Run) (h : st.halt = none)
    (hd : S_ISDIR (fs.INODE inode).i_mode = false) :
    dfs_file_extract_v1 BS fs host (fuel + 1) inode inpath outdir st
      = st.after (leaf_effect BS fs host inode inpath outdir) := by
  unfold leaf_effect
  rw [dfs_file_extract_v1, dfs_file_extract_v1]
  simp only [h, Run.init, Option.isSome_none, Bool.false_eq_true, if_false, hd]
  by_cases hr : S_ISREG (fs.INODE inode).i_mode = true
  · simp only [hr, if_true]
    rw [cmd_copy_frame BS fs host 3 _
        { ops := st.ops, calls := st.calls ++ [(inode, inpath)], halt := none } rfl,
      cmd_copy_frame BS fs host 3 _
        { ops := [], calls := [] ++ [(inode, inpath)], halt := none } rfl]
    simp [Run.after, cmd_copy_calls, Run.init]
  · simp only [hr, Bool.false_eq_true, if_false]
    by_cases hl : S_ISLNK (fs.INODE inode).i_mode = true
    · simp only [hl, if_true]
      by_cases ho : ¬ host.fopen_ok sym_cnt_tmp = true
      · simp [ho, Run.after]
      · simp only [ho, if_false]
        split
        · simp [Run.after]
        · split_ifs <;> simp [Run.after]
    · simp [hl, Run.after]

theorem leaf_effect_calls (BS : Nat) (fs : minix_fs_dat) (host : Host) (inode : Nat)
    (inpath outdir : Path) (hd : S_ISDIR (fs.INODE inode).i_mode = false) :
    (leaf_effect BS fs host inode inpath outdir).calls = [(inode, inpath)] := by
  unfold leaf_effect
  rw [dfs_file_extract_v1]
  simp only [Run.init, Option.isSome_none, Bool.false_eq_true, if_false, hd]
  by_cases hr : S_ISREG (fs.INODE inode).i_mode = true
  · simp [hr, cmd_copy_calls]
  · simp only [hr, Bool.false_eq_true, if_false]
    by_cases hl : S_ISLNK (fs.INODE inode).i_mode = true
    · simp only [hl, if_true]
      by_cases ho : ¬ host.fopen_ok sym_cnt_tmp = true
      · simp [ho]
      · simp only [ho, if_false]
        split
        · simp
        · split_ifs <;> simp
    · simp [hl]

theorem leaf_effect_counts (BS : Nat) (fs : minix_fs_dat) (host : Host) (inode : Nat)
    (inpath outdir : Path) (hd : S_ISDIR (fs.INODE inode).i_mode = false)
    (hh : (leaf_effect BS fs host inode inpath outdir).halt = none) :
    (leaf_effect BS fs host inode inpath outdir).ops.countP is_mkdir = 0
    ∧ (leaf_effect BS fs host inode inpath outdir).ops.countP is_fopen
        = if S_ISREG (fs.INODE inode).i_mode then 1 else 0 := by
  unfold leaf_effect at hh ⊢
  rw [dfs_file_extract_v1] at hh ⊢
  simp only [Run.init, Option.isSome_none, Bool.false_eq_true, if_false, hd] at hh ⊢
  by_cases hr : S_ISREG (fs.INODE inode).i_mode = true
  · simp only [hr, if_true] at hh ⊢
    obtain ⟨i, c, -, -, hops⟩ := cmd_copy_ops _ _ _ _ _ _ hh
    rw [hops]
    split_ifs <;> simp [List.countP_cons, is_mkdir, is_fopen]
  · simp only [hr, Bool.false_eq_true, if_false] at hh ⊢
    by_cases hl : S_ISLNK (fs.INODE inode).i_mode = true
    · simp only [hl, if_true] at hh ⊢
      by_cases ho : ¬ host.fopen_ok sym_cnt_tmp = true
      · simp [ho] at hh
      · simp only [ho, if_false] at hh ⊢
        split
        · simp [is_mkdir, is_fopen]
        · split_ifs <;> simp [is_mkdir, is_fopen]
    · simp [hl, is_mkdir, is_fopen]

theorem leaf_effect_regular (BS : Nat) (fs : minix_fs_dat) (host : Host) (inode n : Nat)
    (inpath outdir : Path) (hd : S_ISDIR (fs.INODE inode).i_mode = false)
    (hr : S_ISREG (fs.INODE inode).i_mode = true)
    (hopen : host.fopen_ok (str_combine outdir inpath) = true)
    (hfind : fs.find_inode inpath = some n)
    (hkind : S_ISREG (stored_mode fs n) = true) :
    (leaf_effect BS fs host inode inpath outdir).halt = none := by
  unfold leaf_effect
  rw [dfs_file_extract_v1]
  simp only [Run.init, Option.isSome_none, Bool.false_eq_true, if_false, hd, hr, if_true]
  unfold cmd_copy readfile
  unfold stored_mode at hkind
  cases hv : fs.version2 <;> simp [hv] at hkind <;>
    simp [hopen, hfind, hv, hkind, show S_IFREG ≠ S_IFLNK by decide]

theorem leaf_effect_other (BS : Nat) (fs : minix_fs_dat) (host : Host) (inode : Nat)
    (inpath outdir : Path) (hd : S_ISDIR (fs.INODE inode).i_mode = false)
    (hr : S_ISREG (fs.INODE inode).i_mode = false)
    (hl : S_ISLNK (fs.INODE inode).i_mode = false) :
    (leaf_effect BS fs host inode inpath outdir).halt = none := by
  unfold leaf_effect
  rw [dfs_file_extract_v1]
  simp [Run.init, hd, hr, hl]

/-! ## The traversal on a finite tree -/

theorem foldl_dfs_halted (BS : Nat) (fs : minix_fs_dat) (host : Host) (fuel : Nat)
    (outdir : Path) :
    ∀ (cs : List (Nat × Path)) (s : Run), s.halt.isSome = true →
      cs.foldl (fun s c => dfs_file_extract_v1 BS fs host fuel c.1 c.2 outdir s) s = s := by
  intro cs
  induction cs with
  | nil => intro s _; rfl
  | cons c cs ih =>
    intro s h
    rw [List.foldl_cons, dfs_halted BS fs host fuel c.1 c.2 outdir s h]
    exact ih s h

mutual
theorem dfs_on_tree (BS : Nat) (fs : minix_fs_dat) (host : Host) (outdir : Path) :
    ∀ (t : Tree) (inpath : Path) (st : Run) (fuel : Nat), st.halt = none →
      t.shown BS fs host outdir inpath = true →
      visit_spec st (dfs_file_extract_v1 BS fs host fuel t.ino inpath outdir st)
        fuel t.depth (t.visits inpath) t.dirs (t.regs fs)
  | Tree.leaf ino, inpath, st, fuel, hst, hsh => by
    simp only [Tree.shown, Bool.and_eq_true, Bool.not_eq_true', beq_iff_eq] at hsh
    obtain ⟨hd, hh⟩ := hsh
    cases fuel with
    | zero =>
      refine ⟨fun h => ?_, fun _ => ?_⟩
      · simp [Tree.depth] at h
      · rw [Tree.ino, dfs_no_fuel _ _ _ _ _ _ _ hst]
    | succ n =>
      have hc := leaf_effect_counts BS fs host ino inpath outdir hd hh
      refine ⟨fun _ => ?_, fun h => ?_⟩
      · rw [Tree.ino, dfs_nondir _ _ _ _ _ _ _ _ hst hd]
        simp only [Run.after, Tree.visits, Tree.dirs, Tree.regs, List.countP_append]
        rw [leaf_effect_calls BS fs host ino inpath outdir hd, hc.1, hc.2]
        exact ⟨hh, rfl, rfl, rfl⟩
      · simp [Tree.depth] at h
  | Tree.dir ino kids, inpath, st, fuel, hst, hsh => by
    simp only [Tree.shown, Bool.and_eq_true, beq_iff_eq] at hsh
    obtain ⟨⟨hd, hcalls⟩, hkids⟩ := hsh
    cases fuel with
    | zero =>
      refine ⟨fun h => ?_, fun _ => ?_⟩
      · simp [Tree.depth] at h
      · rw [Tree.ino, dfs_no_fuel _ _ _ _ _ _ _ hst]
    | succ n =>
      rw [Tree.ino, dfs_dir _ _ _ _ _ _ _ _ hst hd, hcalls]
      have ih := dfs_on_forest BS fs host outdir kids inpath
        ((st.enter ino inpath).emit
          [HostOp.mkdir (str_combine outdir inpath) ((fs.INODE ino).i_mode &&& 0o7777),
           HostOp.utime (str_combine outdir inpath) (fs.INODE ino).i_time (fs.INODE ino).i_time])
        n (by simp [Run.enter, Run.emit, hst]) hkids
      refine ⟨fun h => ?_, fun h => ?_⟩
      · obtain ⟨h1, h2, h3, h4⟩ := ih.1 (by simp [Tree.depth] at h; exact h)
        refine ⟨h1, ?_, ?_, ?_⟩
        · rw [h2]; simp [Run.enter, Run.emit, Tree.visits]
        · rw [h3]; simp [Run.enter, Run.emit, Tree.dirs, List.countP_cons, is_mkdir]; omega
        · rw [h4]; simp [Run.enter, Run.emit, Tree.regs, List.countP_cons, is_fopen]
      · exact ih.2 (by simp [Tree.depth] at h; exact h)
theorem dfs_on_forest (BS : Nat) (fs : minix_fs_dat) (host : Host) (outdir : Path) :
    ∀ (kids : Forest) (inpath : Path) (st : Run) (fuel : Nat), st.halt = none →
      kids.shown BS fs host outdir inpath = true →
      visit_spec st
        ((kids.entries inpath).foldl
          (fun s c => dfs_file_extract_v1 BS fs host fuel c.1 c.2 outdir s) st)
        fuel kids.depth (kids.visits inpath) kids.dirs (kids.regs fs)
  | Forest.nil, inpath, st, fuel, hst, _ => by
    refine ⟨fun _ => ?_, fun h => ?_⟩
    · simp [Forest.entries, Forest.visits, Forest.dirs, Forest.regs, hst]
    · simp [Forest.depth] at h
  | Forest.cons name t rest, inpath, st, fuel, hst, hsh => by
    simp only [Forest.shown, Bool.and_eq_true] at hsh
    obtain ⟨ht, hrest⟩ := hsh
    have iht := dfs_on_tree BS fs host outdir t
      (str_combine (str_combine inpath (lit "/")) name) st fuel hst ht
    simp only [Forest.entries, List.foldl_cons]
    by_cases hdt : t.depth ≤ fuel
    · obtain ⟨h1, h2, h3, h4⟩ := iht.1 hdt
      have ihr := dfs_on_forest BS fs host outdir rest inpath _ fuel h1 hrest
      refine ⟨fun h => ?_, fun h => ?_⟩
      · obtain ⟨k1, k2, k3, k4⟩ := ihr.1 (by simp [Forest.depth] at h; exact h.2)
        refine ⟨k1, ?_, ?_, ?_⟩
        · rw [k2, h2]; simp [Forest.visits]
        · rw [k3, h3]; simp [Forest.dirs]; omega
        · rw [k4, h4]; simp [Forest.regs]; omega
      · exact ihr.2 (by simp [Forest.depth] at h; omega)
    · have hh := iht.2 (by omega)
      rw [foldl_dfs_halted _ _ _ _ _ _ _ (by simp [hh])]
      refine ⟨fun h => ?_, fun _ => hh⟩
      simp [Forest.depth] at h
      omega
end

mutual
theorem tree_visits_length : ∀ (t : Tree) (inpath : Path), (t.visits inpath).length = t.size
  | Tree.leaf _, _ => by simp [Tree.visits, Tree.size]
  | Tree.dir _ kids, inpath => by
    simp [Tree.visits, Tree.size, forest_visits_length kids inpath]
theorem forest_visits_length :
    ∀ (kids : Forest) (inpath : Path), (kids.visits inpath).length = kids.size
  | Forest.nil, _ => by simp [Forest.visits, Forest.size]
  | Forest.cons name t rest, inpath => by
    simp [Forest.visits, Forest.size, tree_visits_length t, forest_visits_length rest inpath]
end

theorem dofwrite_at_end (blk : List Nat) (n : Nat) (fp : FILE) (h : fp.pos = fp.data.length) :
    dofwrite fp blk n
      = { data := fp.data ++ (List.range n).map (fun t => blk.getD t 0), pos := fp.pos + n } := by
  induction n with
  | zero => simp [dofwrite]
  | succ n ih =>
    unfold dofwrite at ih ⊢
    rw [List.range_succ, List.foldl_append, ih]
    simp only [List.foldl_cons, List.foldl_nil]
    rw [putc_at_end _ _ (by simp [h])]
    simp [Nat.add_assoc]

theorem readfile_body_pipe (BS : Nat) (fs : minix_fs_dat) (inode S i : Nat) (fp : FILE)
    (h : fp.pos = fp.data.length) :
    readfile_body BS fs inode S true fp i
      = { data := fp.data ++ pipe_chunk BS fs inode S i,
          pos := fp.pos + (pipe_chunk BS fs inode S i).length } := by
  unfold readfile_body pipe_chunk
  dsimp only
  by_cases hr : (fs.read_inoblk inode (i / BS)).1 ≠ 0
  · rw [if_pos hr, if_pos hr, dofwrite_at_end _ _ _ h]
    simp
  · rw [if_neg hr, if_neg hr]
    simp only [if_true]
    rw [put_zeros_at_end _ _ h]
    simp

theorem foldl_body_pipe (BS : Nat) (fs : minix_fs_dat) (inode S : Nat) :
    ∀ (xs : List Nat) (fp : FILE), fp.pos = fp.data.length →
      xs.foldl (readfile_body BS fs inode S true) fp
        = { data := fp.data ++ xs.flatMap (pipe_chunk BS fs inode S),
            pos := fp.pos + (xs.flatMap (pipe_chunk BS fs inode S)).length } := by
  intro xs
  induction xs with
  | nil => intro fp _; simp
  | cons x xs ih =>
    intro fp h
    rw [List.foldl_cons, readfile_body_pipe _ _ _ _ _ _ h, ih _ (by simp [h])]
    simp [Nat.add_assoc]

/-- In non-seekable mode, on a stream that is at its end, the loop of
`readfile` appends the chunks of its iterations, in order. -/
theorem readfile_loop_pipe (BS : Nat) (fs : minix_fs_dat) (inode S : Nat) (fp : FILE)
    (h : fp.pos = fp.data.length) :
    (readfile_loop BS fs inode S true fp).data
      = fp.data ++ (for_offsets BS S).flatMap (pipe_chunk BS fs inode S) := by
  unfold readfile_loop
  rw [foldl_body_pipe _ _ _ _ _ _ h]

theorem seek_rel_same (p : FILE) (h : p.pos = p.data.length) : seek_rel p p := by
  refine ⟨h, rfl, ?_⟩
  simp [h]

theorem putc_seek_rel (c : Nat) (p s : FILE) (h : seek_rel p s) : putc c s = putc c p := by
  obtain ⟨h1, h2, h3⟩ := h
  have hlen : s.data.length + (s.pos - s.data.length) = p.data.length := by
    rw [h3]; simp
  have hle : ¬ s.pos < s.data.length := by omega
  rw [putc_at_end c p h1]
  unfold putc poke
  rw [if_neg hle, ← h3, h2]

theorem dofwrite_seek_rel (blk : List Nat) (n : Nat) (p s : FILE) (h : seek_rel p s)
    (hn : n ≠ 0) : dofwrite s blk n = dofwrite p blk n := by
  obtain ⟨m, rfl⟩ := Nat.exists_eq_succ_of_ne_zero hn
  unfold dofwrite
  rw [List.range_succ_eq_map, List.foldl_cons, List.foldl_cons, putc_seek_rel _ _ _ h]

theorem hole_seek_rel (n : Nat) (p s : FILE) (h : seek_rel p s) :
    seek_rel (put_zeros n p) (fseek_cur s n) := by
  obtain ⟨h1, h2, h3⟩ := h
  have hlen : s.data.length + (s.pos - s.data.length) = p.data.length := by
    rw [h3]; simp
  rw [put_zeros_at_end n p h1]
  refine ⟨by simp [h1], by simp [fseek_cur, h2], ?_⟩
  simp only [fseek_cur, h3, List.append_assoc, List.append_cancel_left_eq]
  rw [← List.replicate_add]
  congr 1
  omega

theorem dofwrite_end (blk : List Nat) (n : Nat) (p : FILE) (h : p.pos = p.data.length) :
    (dofwrite p blk n).pos = (dofwrite p blk n).data.length := by
  rw [dofwrite_at_end _ _ _ h]
  simp [h]

theorem body_seek_rel (BS : Nat) (fs : minix_fs_dat) (inode S i : Nat) (p s : FILE)
    (h : seek_rel p s) :
    seek_rel (readfile_body BS fs inode S true p i) (readfile_body BS fs inode S false s i)
    ∧ ((fs.read_inoblk inode (i / BS)).1 ≠ 0 →
        readfile_body BS fs inode S false s i = readfile_body BS fs inode S true p i) := by
  unfold readfile_body
  dsimp only
  by_cases hr : (fs.read_inoblk inode (i / BS)).1 ≠ 0
  · rw [if_pos hr, if_pos hr, dofwrite_seek_rel _ _ _ _ h hr]
    exact ⟨seek_rel_same _ (dofwrite_end _ _ _ h.1), fun _ => rfl⟩
  · rw [if_neg hr, if_neg hr]
    simp only [if_true, Bool.false_eq_true, if_false]
    exact ⟨hole_seek_rel _ _ _ h, fun h' => absurd h' hr⟩

theorem foldl_seek_rel (BS : Nat) (fs : minix_fs_dat) (inode S : Nat) :
    ∀ (xs : List Nat) (p s : FILE), seek_rel p s →
      seek_rel (xs.foldl (readfile_body BS fs inode S true) p)
        (xs.foldl (readfile_body BS fs inode S false) s) := by
  intro xs
  induction xs with
  | nil => intro p s h; exact h
  | cons x xs ih =>
    intro p s h
    rw [List.foldl_cons, List.foldl_cons]
    exact ih _ _ (body_seek_rel BS fs inode S x p s h).1

/-- On a fresh empty destination the content produced in non-seekable mode is
the content produced in seekable mode followed by zero bytes up to the final
position; when the size is 0 or the final block is written (not a hole), the
two modes leave the same content and position. -/
theorem readfile_loop_seek_vs_pipe (BS : Nat) (hBS : 0 < BS) (fs : minix_fs_dat)
    (inode S : Nat) :
    seek_rel (readfile_loop BS fs inode S true FILE.empty)
      (readfile_loop BS fs inode S false FILE.empty)
    ∧ ((S = 0 ∨ (fs.read_inoblk inode ((S + BS - 1) / BS - 1)).1 ≠ 0) →
        readfile_loop BS fs inode S false FILE.empty
          = readfile_loop BS fs inode S true FILE.empty) := by
  have h0 : seek_rel FILE.empty FILE.empty := seek_rel_same _ rfl
  refine ⟨foldl_seek_rel BS fs inode S _ _ _ h0, ?_⟩
  intro h
  unfold readfile_loop
  rw [for_offsets_eq BS S hBS]
  rcases Nat.eq_zero_or_pos S with hS | hS
  · have : (S + BS - 1) / BS = 0 := by
      rw [hS]; exact Nat.div_eq_of_lt (by omega)
    rw [this]; rfl
  · have hw : (fs.read_inoblk inode ((S + BS - 1) / BS - 1)).1 ≠ 0 := by
      rcases h with h | h
      · omega
      · exact h
    have hn : 0 < (S + BS - 1) / BS := Nat.div_pos (by omega) hBS
    obtain ⟨m, hm⟩ := Nat.exists_eq_succ_of_ne_zero (Nat.pos_iff_ne_zero.1 hn)
    rw [hm] at hw ⊢
    rw [List.range_succ, List.map_append, List.foldl_append, List.foldl_append]
    simp only [List.map_cons, List.map_nil, List.foldl_cons, List.foldl_nil]
    have hrel := foldl_seek_rel BS fs inode S
      ((List.range m).map (fun k => k * BS)) _ _ h0
    refine (body_seek_rel BS fs inode S (m * BS) _ _ hrel).2 ?_
    rw [Nat.mul_div_cancel _ hBS]
    simpa using hw

/-! ## Length of the output in non-seekable mode -/

theorem pipe_chunk_inner (BS : Nat) (hBS : 0 < BS) (fs : minix_fs_dat) (inode S k : Nat)
    (hconf : (fs.read_inoblk inode k).1 = 0 ∨ (fs.read_inoblk inode k).1 = min BS (S - k * BS))
    (hk : k * BS + BS < S) :
    (pipe_chunk BS fs inode S (k * BS)).length = BS := by
  unfold pipe_chunk
  dsimp only
  rw [Nat.mul_div_cancel _ hBS]
  by_cases hr : (fs.read_inoblk inode k).1 ≠ 0
  · rw [if_pos hr]
    rcases hconf with h | h
    · exact absurd h hr
    · rw [List.length_map, List.length_range, h, Nat.min_eq_left (by omega)]
  · rw [if_neg hr, List.length_replicate]
    unfold hole_bsz
    rw [if_pos (by omega)]

theorem pipe_chunk_last (BS : Nat) (hBS : 0 < BS) (fs : minix_fs_dat) (inode S k : Nat)
    (hconf : (fs.read_inoblk inode k).1 = 0 ∨ (fs.read_inoblk inode k).1 = min BS (S - k * BS))
    (hk : k * BS < S) (hlast : S ≤ k * BS + BS) :
    (pipe_chunk BS fs inode S (k * BS)).length
      = if (fs.read_inoblk inode k).1 = 0 ∧ S = k * BS + BS then 0 else S - k * BS := by
  unfold pipe_chunk
  dsimp only
  rw [Nat.mul_div_cancel _ hBS]
  by_cases hr : (fs.read_inoblk inode k).1 ≠ 0
  · rw [if_pos hr, if_neg (fun h => hr h.1)]
    rcases hconf with h | h
    · exact absurd h hr
    · rw [List.length_map, List.length_range, h, Nat.min_eq_right (by omega)]
  · have hr0 : (fs.read_inoblk inode k).1 = 0 := by omega
    rw [if_neg hr, List.length_replicate]
    unfold hole_bsz
    rw [if_neg (by omega)]
    have e : S = (S - k * BS) + k * BS := by omega
    by_cases hfull : S = k * BS + BS
    · rw [if_pos ⟨hr0, hfull⟩, hfull, Nat.add_comm, Nat.add_mul_mod_self_right, Nat.mod_self]
    · rw [if_neg (fun h => hfull h.2)]
      conv_lhs => rw [e]
      rw [Nat.add_mul_mod_self_right, Nat.mod_eq_of_lt (by omega)]

theorem pipe_chunks_inner (BS : Nat) (hBS : 0 < BS) (fs : minix_fs_dat) (inode S : Nat)
    (hconf : ∀ k, k * BS < S →
      (fs.read_inoblk inode k).1 = 0 ∨ (fs.read_inoblk inode k).1 = min BS (S - k * BS)) :
    ∀ m, m * BS < S →
      (((List.range m).map (fun k => k * BS)).flatMap (pipe_chunk BS fs inode S)).length
        = m * BS := by
  intro m
  induction m with
  | zero => intro _; simp
  | succ m ih =>
    intro h
    have e : (m + 1) * BS = m * BS + BS := Nat.succ_mul m BS
    rw [List.range_succ, List.map_append, List.flatMap_append, List.length_append,
      ih (by omega)]
    simp only [List.map_cons, List.map_nil, List.flatMap_cons, List.flatMap_nil,
      List.append_nil]
    rw [pipe_chunk_inner BS hBS fs inode S m (hconf m (by omega)) (by omega), e]

/-- When the block reader returns `min(BLOCK_SIZE, S - k * BLOCK_SIZE)` bytes
for each block that is written and 0 for each hole, the output of the loop of
`readfile` in non-seekable mode on an empty stream has length `S`, except when
`S` is a positive multiple of `BLOCK_SIZE` and the final block is a hole: then
the last `BLOCK_SIZE` bytes are missing. -/
theorem readfile_loop_pipe_length (BS : Nat) (hBS : 0 < BS) (fs : minix_fs_dat)
    (inode S : Nat)
    (hconf : ∀ k, k * BS < S →
      (fs.read_inoblk inode k).1 = 0 ∨ (fs.read_inoblk inode k).1 = min BS (S - k * BS)) :
    (readfile_loop BS fs inode S true FILE.empty).data.length
      = if 0 < S ∧ S % BS = 0 ∧ (fs.read_inoblk inode ((S + BS - 1) / BS - 1)).1 = 0
        then S - BS else S := by
  rw [readfile_loop_pipe BS fs inode S FILE.empty rfl, for_offsets_eq BS S hBS]
  simp only [FILE.empty, List.nil_append]
  rcases Nat.eq_zero_or_pos S with hS | hS
  · have : (S + BS - 1) / BS = 0 := by
      rw [hS]; exact Nat.div_eq_of_lt (by omega)
    rw [this, if_neg (by omega)]
    simp [hS]
  · have hn : 0 < (S + BS - 1) / BS := Nat.div_pos (by omega) hBS
    obtain ⟨m, hm⟩ := Nat.exists_eq_succ_of_ne_zero (Nat.pos_iff_ne_zero.1 hn)
    have h1 : (S + BS - 1) / BS * BS ≤ S + BS - 1 := Nat.div_mul_le_self _ _
    have h2 : S + BS - 1 < BS * ((S + BS - 1) / BS + 1) := Nat.lt_mul_div_succ _ hBS
    rw [hm] at h1 h2 ⊢
    have e1 : (m + 1) * BS = m * BS + BS := Nat.succ_mul m BS
    have e2 : BS * (m + 1 + 1) = m * BS + BS + BS := by
      rw [Nat.mul_comm, Nat.succ_mul, Nat.succ_mul]
    rw [e1] at h1
    rw [e2] at h2
    have hlo : m * BS < S := by omega
    have hhi : S ≤ m * BS + BS := by omega
    rw [List.range_succ, List.map_append, List.flatMap_append, List.length_append,
      pipe_chunks_inner BS hBS fs inode S hconf m hlo]
    simp only [List.map_cons, List.map_nil, List.flatMap_cons, List.flatMap_nil,
      List.append_nil, Nat.add_sub_cancel]
    rw [pipe_chunk_last BS hBS fs inode S m (hconf m hlo) hlo hhi]
    by_cases hr : (fs.read_inoblk inode m).1 = 0
    · by_cases hfull : S = m * BS + BS
      · have hmod : S % BS = 0 := by
          rw [hfull, Nat.add_comm, Nat.add_mul_mod_self_right, Nat.mod_self]
        rw [if_pos ⟨hr, hfull⟩, if_pos ⟨hS, hmod, hr⟩]
        omega
      · have hmod : S % BS ≠ 0 := by
          have e : S = (S - m * BS) + m * BS := by omega
          rw [e, Nat.add_mul_mod_self_right, Nat.mod_eq_of_lt (by omega)]
          omega
        rw [if_neg (fun h => hfull h.2), if_neg (fun h => hmod h.2.1)]
        omega
    · rw [if_neg (fun h => hr h.1), if_neg (fun h => hr h.2.2)]
      omega

end Mfstool
